import Mathlib

/-!
Verification of the eta-reduction (redundant closure) detector from
`clippy_lints/src/eta_reduction.rs`, shallowly embedded in Lean 4.

The host compiler's type representation (`ty::TyKind`) is modelled by the
closed grammar `Ty` below, covering exactly the variants the detector's
structural matchers inspect (booleans, chars, machine integers, `str`,
references, arrays, slices, nominal/ADT types), with the payloads the source
code carries but ignores (integer widths, reference mutability, array
lengths, ADT type arguments) kept as fields so the theorems show they are
ignored.  External compiler queries (`is_adjusted`, `type_is_unsafe_function`,
`snippet_opt`, `item_path_str`, `fn_sig`, `trait_of_item`, `impl_of_method`,
`node_type`) are modelled as data attached to the embedded expressions or
carried by an environment record.
-/

/-- Model of the type descriptors the detector inspects (`ty::TyKind`).
Payloads that the source matchers destructure but never compare
(integer width, reference mutability, array length, ADT type arguments)
are retained as fields. -/
inductive Ty where
  | bool : Ty
  | char : Ty
  | int (width : Nat) : Ty
  | uint (width : Nat) : Ty
  | str : Ty
  | ref (mutbl : Bool) (inner : Ty) : Ty
  | array (inner : Ty) (len : Nat) : Ty
  | slice (inner : Ty) : Ty
  | adt (defId : Nat) (args : Nat) : Ty
deriving DecidableEq, Repr

/-- Embeds `fn match_borrow_depth(lhs, rhs)`: strips matching reference
layers from both sides, fails as soon as exactly one side is a reference. -/
def match_borrow_depth : Ty → Ty → Bool
  | .ref _ t1, .ref _ t2 => match_borrow_depth t1 t2
  | .ref _ _, _ => false
  | _, .ref _ _ => false
  | _, _ => true

/-- Embeds `fn match_types(lhs, rhs)`: structural type equality as the source
defines it, primitive kinds same-to-same (integer widths ignored),
ref/array/slice recurse on the inner type, ADTs compared by definition id,
every other pairing false. -/
def match_types : Ty → Ty → Bool
  | .bool, .bool => true
  | .char, .char => true
  | .int _, .int _ => true
  | .uint _, .uint _ => true
  | .str, .str => true
  | .ref _ t1, .ref _ t2 => match_types t1 t2
  | .array t1 _, .array t2 _ => match_types t1 t2
  | .slice t1, .slice t2 => match_types t1 t2
  | .adt d1 _, .adt d2 _ => d1 == d2
  | _, _ => false

/-- Environment: the read-only compiler context a detector call consults.
`adtPath d` models `cx.tcx.item_path_str(d)`, the printable path of the
ADT with definition id `d`. -/
structure Env where
  adtPath : Nat → String

/-- Model of `TyKind`'s `Display` rendering, used by `get_type_name`'s
fallback arm (`_ => kind.to_string()`). -/
def tyToString : Ty → String
  | .bool => "bool"
  | .char => "char"
  | .int w => "i" ++ toString w
  | .uint w => "u" ++ toString w
  | .str => "str"
  | .ref _ t => "&" ++ tyToString t
  | .array t n => "[" ++ tyToString t ++ "; " ++ toString n ++ "]"
  | .slice t => "[" ++ tyToString t ++ "]"
  | .adt d _ => "adt#" ++ toString d

/-- Embeds `fn get_type_name(cx, kind)`: ADTs print their item path,
references print the name of their referent, everything else falls back to
the display rendering. -/
def get_type_name (env : Env) : Ty → String
  | .adt d _ => env.adtPath d
  | .ref _ r => get_type_name env r
  | k => tyToString k

/-- Number of leading reference layers of a type descriptor. -/
def refDepth : Ty → Nat
  | .ref _ t => refDepth t + 1
  | _ => 0

/-- The part of a type descriptor that `match_types` actually compares:
everything with the ignored payloads (widths, mutability, array length,
ADT type arguments) erased. -/
inductive TyShape where
  | bool : TyShape
  | char : TyShape
  | int : TyShape
  | uint : TyShape
  | str : TyShape
  | ref (inner : TyShape) : TyShape
  | array (inner : TyShape) : TyShape
  | slice (inner : TyShape) : TyShape
  | adt (defId : Nat) : TyShape
deriving DecidableEq, Repr

/-- Erase the payloads `match_types` ignores. -/
def shape : Ty → TyShape
  | .bool => .bool
  | .char => .char
  | .int _ => .int
  | .uint _ => .uint
  | .str => .str
  | .ref _ t => .ref (shape t)
  | .array t _ => .array (shape t)
  | .slice t => .slice (shape t)
  | .adt d _ => .adt d

/-- Structural size of a type descriptor; bounds the recursion depth of all
three tree walks. -/
def sizeTy : Ty → Nat
  | .ref _ t => sizeTy t + 1
  | .array t _ => sizeTy t + 1
  | .slice t => sizeTy t + 1
  | _ => 1

/-- Fuel-indexed `match_borrow_depth`: returns `none` when the step budget
runs out, so proving it returns `some` at fuel `sizeTy` is a termination
bound for the recursion. -/
def mbdFuel : Nat → Ty → Ty → Option Bool
  | 0, _, _ => none
  | fuel + 1, a, b =>
    match a, b with
    | .ref _ t1, .ref _ t2 => mbdFuel fuel t1 t2
    | .ref _ _, _ => some false
    | _, .ref _ _ => some false
    | _, _ => some true

/-- Fuel-indexed `match_types`. -/
def mtFuel : Nat → Ty → Ty → Option Bool
  | 0, _, _ => none
  | fuel + 1, a, b =>
    match a, b with
    | .bool, .bool => some true
    | .char, .char => some true
    | .int _, .int _ => some true
    | .uint _, .uint _ => some true
    | .str, .str => some true
    | .ref _ t1, .ref _ t2 => mtFuel fuel t1 t2
    | .array t1 _, .array t2 _ => mtFuel fuel t1 t2
    | .slice t1, .slice t2 => mtFuel fuel t1 t2
    | .adt d1 _, .adt d2 _ => some (d1 == d2)
    | _, _ => some false

/-- Fuel-indexed `get_type_name`. -/
def gtnFuel (env : Env) : Nat → Ty → Option String
  | 0, _ => none
  | fuel + 1, t =>
    match t with
    | .adt d _ => some (env.adtPath d)
    | .ref _ r => gtnFuel env fuel r
    | k => some (tyToString k)

lemma mbdFuel_size (a : Ty) : ∀ b : Ty, mbdFuel (sizeTy a) a b = some (match_borrow_depth a b) := by
  induction a with
  | ref m t ih =>
      intro b
      cases b <;> simp [sizeTy, mbdFuel, match_borrow_depth, ih]
  | bool => intro b; cases b <;> simp [sizeTy, mbdFuel, match_borrow_depth]
  | char => intro b; cases b <;> simp [sizeTy, mbdFuel, match_borrow_depth]
  | int w => intro b; cases b <;> simp [sizeTy, mbdFuel, match_borrow_depth]
  | uint w => intro b; cases b <;> simp [sizeTy, mbdFuel, match_borrow_depth]
  | str => intro b; cases b <;> simp [sizeTy, mbdFuel, match_borrow_depth]
  | array t n ih => intro b; cases b <;> simp [sizeTy, mbdFuel, match_borrow_depth]
  | slice t ih => intro b; cases b <;> simp [sizeTy, mbdFuel, match_borrow_depth]
  | adt d g => intro b; cases b <;> simp [sizeTy, mbdFuel, match_borrow_depth]

lemma mtFuel_size (a : Ty) : ∀ b : Ty, mtFuel (sizeTy a) a b = some (match_types a b) := by
  induction a with
  | ref m t ih => intro b; cases b <;> simp [sizeTy, mtFuel, match_types, ih]
  | array t n ih => intro b; cases b <;> simp [sizeTy, mtFuel, match_types, ih]
  | slice t ih => intro b; cases b <;> simp [sizeTy, mtFuel, match_types, ih]
  | bool => intro b; cases b <;> simp [sizeTy, mtFuel, match_types]
  | char => intro b; cases b <;> simp [sizeTy, mtFuel, match_types]
  | int w => intro b; cases b <;> simp [sizeTy, mtFuel, match_types]
  | uint w => intro b; cases b <;> simp [sizeTy, mtFuel, match_types]
  | str => intro b; cases b <;> simp [sizeTy, mtFuel, match_types]
  | adt d g => intro b; cases b <;> simp [sizeTy, mtFuel, match_types]

lemma gtnFuel_size (env : Env) (a : Ty) : gtnFuel env (sizeTy a) a = some (get_type_name env a) := by
  induction a with
  | ref m t ih => simp [sizeTy, gtnFuel, get_type_name, ih]
  | bool => simp [sizeTy, gtnFuel, get_type_name]
  | char => simp [sizeTy, gtnFuel, get_type_name]
  | int w => simp [sizeTy, gtnFuel, get_type_name]
  | uint w => simp [sizeTy, gtnFuel, get_type_name]
  | str => simp [sizeTy, gtnFuel, get_type_name]
  | array t n ih => simp [sizeTy, gtnFuel, get_type_name]
  | slice t ih => simp [sizeTy, gtnFuel, get_type_name]
  | adt d g => simp [sizeTy, gtnFuel, get_type_name]

lemma match_borrow_depth_iff_refDepth (a : Ty) :
    ∀ b : Ty, match_borrow_depth a b = true ↔ refDepth a = refDepth b := by
  induction a with
  | ref m t ih =>
      intro b
      cases b <;> simp [match_borrow_depth, refDepth, ih]
  | bool => intro b; cases b <;> simp [match_borrow_depth, refDepth]
  | char => intro b; cases b <;> simp [match_borrow_depth, refDepth]
  | int w => intro b; cases b <;> simp [match_borrow_depth, refDepth]
  | uint w => intro b; cases b <;> simp [match_borrow_depth, refDepth]
  | str => intro b; cases b <;> simp [match_borrow_depth, refDepth]
  | array t n ih => intro b; cases b <;> simp [match_borrow_depth, refDepth]
  | slice t ih => intro b; cases b <;> simp [match_borrow_depth, refDepth]
  | adt d g => intro b; cases b <;> simp [match_borrow_depth, refDepth]

lemma match_types_iff_shape (a : Ty) :
    ∀ b : Ty, match_types a b = true ↔ shape a = shape b := by
  induction a with
  | ref m t ih => intro b; cases b <;> simp [match_types, shape, ih]
  | array t n ih => intro b; cases b <;> simp [match_types, shape, ih]
  | slice t ih => intro b; cases b <;> simp [match_types, shape, ih]
  | bool => intro b; cases b <;> simp [match_types, shape]
  | char => intro b; cases b <;> simp [match_types, shape]
  | int w => intro b; cases b <;> simp [match_types, shape]
  | uint w => intro b; cases b <;> simp [match_types, shape]
  | str => intro b; cases b <;> simp [match_types, shape]
  | adt d g => intro b; cases b <;> simp [match_types, shape]

lemma match_types_symm (a : Ty) : ∀ b : Ty, match_types a b = match_types b a := by
  induction a with
  | ref m t ih => intro b; cases b <;> simp [match_types, ih]
  | array t n ih => intro b; cases b <;> simp [match_types, ih]
  | slice t ih => intro b; cases b <;> simp [match_types, ih]
  | bool => intro b; cases b <;> simp [match_types]
  | char => intro b; cases b <;> simp [match_types]
  | int w => intro b; cases b <;> simp [match_types]
  | uint w => intro b; cases b <;> simp [match_types]
  | str => intro b; cases b <;> simp [match_types]
  | adt d g =>
      intro b
      cases b <;> simp [match_types]
      exact eq_comm

lemma match_borrow_depth_symm (a : Ty) :
    ∀ b : Ty, match_borrow_depth a b = match_borrow_depth b a := by
  induction a with
  | ref m t ih => intro b; cases b <;> simp [match_borrow_depth, ih]
  | bool => intro b; cases b <;> simp [match_borrow_depth]
  | char => intro b; cases b <;> simp [match_borrow_depth]
  | int w => intro b; cases b <;> simp [match_borrow_depth]
  | uint w => intro b; cases b <;> simp [match_borrow_depth]
  | str => intro b; cases b <;> simp [match_borrow_depth]
  | array t n ih => intro b; cases b <;> simp [match_borrow_depth]
  | slice t ih => intro b; cases b <;> simp [match_borrow_depth]
  | adt d g => intro b; cases b <;> simp [match_borrow_depth]

lemma match_types_refl (t : Ty) : match_types t t = true := by
  induction t with
  | ref m t ih => simp [match_types, ih]
  | array t n ih => simp [match_types, ih]
  | slice t ih => simp [match_types, ih]
  | bool => simp [match_types]
  | char => simp [match_types]
  | int w => simp [match_types]
  | uint w => simp [match_types]
  | str => simp [match_types]
  | adt d g => simp [match_types]

lemma match_borrow_depth_refl (t : Ty) : match_borrow_depth t t = true := by
  induction t with
  | ref m t ih => simp [match_borrow_depth, ih]
  | bool => simp [match_borrow_depth]
  | char => simp [match_borrow_depth]
  | int w => simp [match_borrow_depth]
  | uint w => simp [match_borrow_depth]
  | str => simp [match_borrow_depth]
  | array t n ih => simp [match_borrow_depth]
  | slice t ih => simp [match_borrow_depth]
  | adt d g => simp [match_borrow_depth]

/-- Closure parameter pattern (`closure_input.pat.node`): either a simple
name binding (`PatKind::Binding`) or any other pattern. -/
inductive Pat where
  | binding (name : String) : Pat
  | otherPat : Pat
deriving DecidableEq, Repr

/-- Shape of a call-argument expression, as far as `compare_inputs` looks:
a resolved path (`ExprKind::Path(QPath::Resolved(qself, path))`, with
`hasQSelf` recording whether the qualified-self part is present) or any
other expression kind. -/
inductive ArgKind where
  | resolvedPath (hasQSelf : Bool) (segments : List String) : ArgKind
  | otherExpr : ArgKind
deriving DecidableEq, Repr

/-- A call/method-call argument expression together with the compiler facts
the detector queries about it: `isAdjusted` models `is_adjusted(cx, arg)`,
`ty` models `cx.tables.node_type(arg.hir_id)`. -/
structure ArgExpr where
  isAdjusted : Bool
  kind : ArgKind
  ty : Ty
deriving DecidableEq, Repr

/-- The callee expression of a direct call together with the compiler facts
the detector queries about it: `isUnsafeFnTy` models
`type_is_unsafe_function(cx, cx.tables.expr_ty(caller))` and `src` models
`snippet_opt(cx, caller.span)`. -/
structure CallerExpr where
  isUnsafeFnTy : Bool
  src : Option String
deriving DecidableEq, Repr

/-- Which container declares the resolved method: a trait (with its printable
fully-qualified path, modelling `trait_of_item` plus `item_path_str`) or an
impl (modelling `impl_of_method`).  The parent of an associated method is
always exactly one of the two, so the model is an enumeration. -/
inductive MethodContainer where
  | traitC (traitPath : String) : MethodContainer
  | implC : MethodContainer
deriving DecidableEq, Repr

/-- The resolved method of a method-call body (`type_dependent_defs` def id):
`selfTy` models `fn_sig(def_id).inputs_and_output()[0]` (the declared self
type), `isUnsafeFnTy` models `type_is_unsafe_function(cx, type_of(def_id))`,
`container` records trait vs. inherent-impl membership. -/
structure MethodSig where
  selfTy : Ty
  isUnsafeFnTy : Bool
  container : MethodContainer
deriving DecidableEq, Repr

/-- The closure body, as far as `check_closure` destructures it:
`ExprKind::Call(caller, args)`, `ExprKind::MethodCall(path, _, args)`
(in this compiler representation `args[0]` is the receiver, kept separate
here so the list is never empty), or any other expression.  `exAdjusted`
models `is_adjusted(cx, ex)` on the body expression itself. -/
inductive ClosureBody where
  | call (caller : CallerExpr) (callArgs : List ArgExpr) (exAdjusted : Bool) : ClosureBody
  | methodCall (sig : MethodSig) (methodName : String)
      (receiver : ArgExpr) (restArgs : List ArgExpr) (exAdjusted : Bool) : ClosureBody
  | otherBody : ClosureBody
deriving DecidableEq, Repr

/-- A candidate closure: its parameter patterns (`iter_input_pats`; `decl.inputs`
has the same length) and its body expression. -/
structure Closure where
  params : List Pat
  body : ClosureBody
deriving DecidableEq, Repr

/-- A reported lint: `replacement` is the `span_suggestion` text when one is
attached (`none` when the direct-call case finds no source snippet). -/
structure Finding where
  replacement : Option String
deriving DecidableEq, Repr

/-- Embeds `fn compare_inputs(closure_inputs, call_args)`: walks the zipped
sequences; each closure parameter must be a simple binding, each argument a
resolved path without qualified self and with exactly one segment whose
identifier equals the binding name; any mismatch returns false at once,
exhausting either sequence returns true. -/
def compare_inputs : List Pat → List ArgExpr → Bool
  | closureInput :: ps, functionArg :: qs =>
    match closureInput with
    | .binding ident =>
      match functionArg.kind with
      | .resolvedPath false segments =>
        match segments with
        | [s] => if s != ident then false else compare_inputs ps qs
        | _ => false
      | _ => false
    | _ => false
  | _, _ => true

/-- Embeds `fn get_ufcs_type_name(cx, method_def_id, self_arg)`: for a trait
method, return the trait path when borrow depths of declared self type and
actual receiver type agree; otherwise fall through to the impl case, which
for a trait method yields nothing.  For an inherent method, return the
printable name of the actual receiver type when the two types are
structurally equal. -/
def get_ufcs_type_name (env : Env) (sig : MethodSig) (actualTypeOfSelf : Ty) : Option String :=
  match sig.container with
  | .traitC traitPath =>
      if match_borrow_depth sig.selfTy actualTypeOfSelf then some traitPath else none
  | .implC =>
      if match_types sig.selfTy actualTypeOfSelf
      then some (get_type_name env actualTypeOfSelf)
      else none

/-- Embeds `fn check_closure(cx, expr)` applied to a closure expression:
the direct-call chain and the method-call chain of the source, selected by
the body's expression kind (a body is at most one of the two).  Returns the
emitted finding, `none` when the detector abstains. -/
def check_closure (env : Env) (c : Closure) : Option Finding :=
  match c.body with
  | .call caller callArgs exAdjusted =>
      if callArgs.length == c.params.length
          && !(exAdjusted || callArgs.any (fun a => a.isAdjusted))
          && !caller.isUnsafeFnTy
          && compare_inputs c.params callArgs
      then some ⟨caller.src⟩
      else none
  | .methodCall sig methodName receiver restArgs exAdjusted =>
      let callArgs := receiver :: restArgs
      if callArgs.length == c.params.length
          && !(exAdjusted || restArgs.any (fun a => a.isAdjusted))
          && !sig.isUnsafeFnTy
          && compare_inputs c.params callArgs
      then
        match get_ufcs_type_name env sig receiver.ty with
        | some name => some ⟨some (name ++ "::" ++ methodName)⟩
        | none => none
      else none
  | .otherBody => none

/-- The per-pair verdict of `compare_inputs`: simple binding against a bare
one-segment unqualified path spelling the same identifier. -/
def pairForwards (p : Pat) (q : ArgExpr) : Bool :=
  match p, q.kind with
  | .binding ident, .resolvedPath false [s] => s == ident
  | _, _ => false

lemma compare_inputs_eq_all (ps : List Pat) :
    ∀ qs : List ArgExpr,
      compare_inputs ps qs = (ps.zip qs).all (fun pq => pairForwards pq.1 pq.2) := by
  induction ps with
  | nil => intro qs; cases qs <;> simp [compare_inputs]
  | cons p ps ih =>
      intro qs
      cases qs with
      | nil => simp [compare_inputs]
      | cons q qs =>
          cases p with
          | otherPat => simp [compare_inputs, pairForwards]
          | binding ident =>
              cases hk : q.kind with
              | otherExpr => simp [compare_inputs, pairForwards, hk]
              | resolvedPath hq segments =>
                  cases hq with
                  | true => simp [compare_inputs, pairForwards, hk]
                  | false =>
                      match segments with
                      | [] => simp [compare_inputs, pairForwards, hk]
                      | [s] =>
                          by_cases hs : s = ident <;>
                            simp [compare_inputs, pairForwards, hk, hs, ih]
                      | s :: s2 :: rest => simp [compare_inputs, pairForwards, hk]

lemma pairForwards_iff (p : Pat) (q : ArgExpr) :
    pairForwards p q = true ↔
      ∃ name, p = Pat.binding name ∧ q.kind = ArgKind.resolvedPath false [name] := by
  cases p with
  | otherPat => simp [pairForwards]
  | binding ident =>
      cases hk : q.kind with
      | otherExpr => simp [pairForwards, hk]
      | resolvedPath hq segments =>
          cases hq with
          | true => simp [pairForwards, hk]
          | false =>
              match segments with
              | [] => simp [pairForwards, hk]
              | [s] =>
                  have hpf : pairForwards (Pat.binding ident) q = (s == ident) := by
                    simp [pairForwards, hk]
                  rw [hpf]
                  constructor
                  · intro h
                    have hs : s = ident := by simpa using h
                    exact ⟨ident, rfl, by rw [hs]⟩
                  · rintro ⟨name, hn, hq2⟩
                    have hn2 : ident = name := by simpa using hn
                    subst hn2
                    have hs : s = ident := by simpa using hq2
                    simp [hs]
              | s :: s2 :: rest => simp [pairForwards, hk]

lemma check_closure_call_eq (env : Env) (params : List Pat) (caller : CallerExpr)
    (callArgs : List ArgExpr) (exAdjusted : Bool) :
    check_closure env ⟨params, .call caller callArgs exAdjusted⟩ =
      if callArgs.length = params.length ∧ exAdjusted = false
          ∧ (∀ a ∈ callArgs, a.isAdjusted = false)
          ∧ caller.isUnsafeFnTy = false ∧ compare_inputs params callArgs = true
      then some ⟨caller.src⟩
      else none := by
  have hiff : (callArgs.length == params.length
      && !(exAdjusted || callArgs.any fun a => a.isAdjusted)
      && !caller.isUnsafeFnTy && compare_inputs params callArgs) = true
    ↔ (callArgs.length = params.length ∧ exAdjusted = false
        ∧ (∀ a ∈ callArgs, a.isAdjusted = false)
        ∧ caller.isUnsafeFnTy = false ∧ compare_inputs params callArgs = true) := by
    simp [and_assoc]
  simp only [check_closure]
  by_cases h : callArgs.length = params.length ∧ exAdjusted = false
      ∧ (∀ a ∈ callArgs, a.isAdjusted = false)
      ∧ caller.isUnsafeFnTy = false ∧ compare_inputs params callArgs = true
  · rw [if_pos h, if_pos (hiff.mpr h)]
  · rw [if_neg h, if_neg (by simpa using fun hb => h (hiff.mp hb))]

lemma check_closure_method_eq (env : Env) (params : List Pat) (sig : MethodSig)
    (methodName : String) (receiver : ArgExpr) (restArgs : List ArgExpr)
    (exAdjusted : Bool) :
    check_closure env ⟨params, .methodCall sig methodName receiver restArgs exAdjusted⟩ =
      if restArgs.length + 1 = params.length ∧ exAdjusted = false
          ∧ (∀ a ∈ restArgs, a.isAdjusted = false)
          ∧ sig.isUnsafeFnTy = false
          ∧ compare_inputs params (receiver :: restArgs) = true
      then
        match get_ufcs_type_name env sig receiver.ty with
        | some name => some ⟨some (name ++ "::" ++ methodName)⟩
        | none => none
      else none := by
  have hiff : ((receiver :: restArgs).length == params.length
      && !(exAdjusted || restArgs.any fun a => a.isAdjusted)
      && !sig.isUnsafeFnTy && compare_inputs params (receiver :: restArgs)) = true
    ↔ (restArgs.length + 1 = params.length ∧ exAdjusted = false
        ∧ (∀ a ∈ restArgs, a.isAdjusted = false)
        ∧ sig.isUnsafeFnTy = false
        ∧ compare_inputs params (receiver :: restArgs) = true) := by
    simp [and_assoc, List.length_cons]
  simp only [check_closure]
  by_cases h : restArgs.length + 1 = params.length ∧ exAdjusted = false
      ∧ (∀ a ∈ restArgs, a.isAdjusted = false)
      ∧ sig.isUnsafeFnTy = false
      ∧ compare_inputs params (receiver :: restArgs) = true
  · rw [if_pos h, if_pos (hiff.mpr h)]
  · rw [if_neg h, if_neg (by simpa using fun hb => h (hiff.mp hb))]

lemma compare_inputs_iff (ps : List Pat) (qs : List ArgExpr) :
    compare_inputs ps qs = true ↔
      ∀ pq ∈ ps.zip qs,
        ∃ name, pq.1 = Pat.binding name ∧ pq.2.kind = ArgKind.resolvedPath false [name] := by
  rw [compare_inputs_eq_all, List.all_eq_true]
  constructor
  · intro h pq hm
    exact (pairForwards_iff pq.1 pq.2).mp (h pq hm)
  · intro h pq hm
    exact (pairForwards_iff pq.1 pq.2).mpr (h pq hm)

lemma compare_inputs_kind_congr (ps : List Pat) (a b : ArgExpr) (h : a.kind = b.kind)
    (qs : List ArgExpr) : compare_inputs ps (a :: qs) = compare_inputs ps (b :: qs) := by
  cases ps with
  | nil => rfl
  | cons p ps =>
      cases p with
      | otherPat => rfl
      | binding ident =>
          simp only [compare_inputs]
          rw [h]

/-- Claim C1: for a closure whose body is a single direct call, a finding is
emitted exactly when the argument count equals the parameter count, neither
the call expression nor any argument is type-adjusted, the callee's function
type is not unsafe, and `compare_inputs` accepts; the emitted finding's
replacement text is the verbatim source text of the callee (absent exactly
when no source snippet exists), and on any failed precondition the result is
`none` with no error. -/
theorem claim_C1_direct_call_characterization (env : Env) (params : List Pat)
    (caller : CallerExpr) (callArgs : List ArgExpr) (exAdjusted : Bool) :
    check_closure env ⟨params, ClosureBody.call caller callArgs exAdjusted⟩ =
      if callArgs.length = params.length ∧ exAdjusted = false
          ∧ (∀ a ∈ callArgs, a.isAdjusted = false)
          ∧ caller.isUnsafeFnTy = false ∧ compare_inputs params callArgs = true
      then some ⟨caller.src⟩
      else none :=
  check_closure_call_eq env params caller callArgs exAdjusted

/-- Claim C2 counterexample: a method-call closure whose receiver is flagged
as type-adjusted still produces a finding, so the receiver is NOT covered by
the no-type-adjustment scan, contrary to the claim. -/
theorem claim_C2_counterexample :
    ((⟨true, ArgKind.resolvedPath false ["s"], Ty.bool⟩ : ArgExpr).isAdjusted = true)
    ∧ check_closure ⟨fun _ => ""⟩
        ⟨[Pat.binding "s"],
          ClosureBody.methodCall ⟨Ty.bool, false, MethodContainer.traitC "T"⟩ "m"
            ⟨true, ArgKind.resolvedPath false ["s"], Ty.bool⟩ [] false⟩
      = some ⟨some "T::m"⟩ :=
  ⟨rfl, rfl⟩

/-- Claim C2 (amended): in the method-call detector the adjustment scan skips
the receiver (position 0): only the method-call expression itself and the
arguments after the receiver are consulted, so flipping the receiver's
adjustment flag never changes the outcome. -/
theorem claim_C2_amended (env : Env) (params : List Pat) (sig : MethodSig)
    (methodName : String) (rk : ArgKind) (rt : Ty) (restArgs : List ArgExpr)
    (exAdjusted : Bool) (adjA adjB : Bool) :
    check_closure env ⟨params,
        ClosureBody.methodCall sig methodName ⟨adjA, rk, rt⟩ restArgs exAdjusted⟩
    = check_closure env ⟨params,
        ClosureBody.methodCall sig methodName ⟨adjB, rk, rt⟩ restArgs exAdjusted⟩ := by
  have hc : compare_inputs params (⟨adjA, rk, rt⟩ :: restArgs)
      = compare_inputs params (⟨adjB, rk, rt⟩ :: restArgs) :=
    compare_inputs_kind_congr params ⟨adjA, rk, rt⟩ ⟨adjB, rk, rt⟩ rfl restArgs
  simp [check_closure_method_eq, hc]

/-- Claim C3: `compare_inputs` returns true iff every zipped
parameter/argument pair is a simple binding matched against a bare
unqualified one-segment path spelling the same identifier; unzipped excess
elements on either side are ignored, and nothing but pattern and path
spelling is consulted. -/
theorem claim_C3_compare_inputs (ps : List Pat) (qs : List ArgExpr) :
    compare_inputs ps qs = true ↔
      ∀ pq ∈ ps.zip qs,
        ∃ name, pq.1 = Pat.binding name ∧ pq.2.kind = ArgKind.resolvedPath false [name] :=
  compare_inputs_iff ps qs

/-- Claim C4: when the called function's type is unsafe (direct case: the
callee's function type; method case: the resolved method's signature type),
no finding is emitted, whatever the parameters and arguments are. -/
theorem claim_C4_unsafe_no_finding (env : Env) :
    (∀ (params : List Pat) (caller : CallerExpr) (callArgs : List ArgExpr)
        (exAdjusted : Bool), caller.isUnsafeFnTy = true →
        check_closure env ⟨params, ClosureBody.call caller callArgs exAdjusted⟩ = none)
    ∧ (∀ (params : List Pat) (sig : MethodSig) (methodName : String)
        (receiver : ArgExpr) (restArgs : List ArgExpr) (exAdjusted : Bool),
        sig.isUnsafeFnTy = true →
        check_closure env
          ⟨params, ClosureBody.methodCall sig methodName receiver restArgs exAdjusted⟩
          = none) := by
  constructor
  · intro params caller callArgs exAdjusted h
    simp [check_closure_call_eq, h]
  · intro params sig methodName receiver restArgs exAdjusted h
    simp [check_closure_method_eq, h]

/-- Witness for claim C4 at concrete inputs where every name matches. -/
theorem claim_C4_witness :
    check_closure ⟨fun _ => ""⟩
      ⟨[Pat.binding "x"],
        ClosureBody.call ⟨true, some "foo"⟩
          [⟨false, ArgKind.resolvedPath false ["x"], Ty.bool⟩] false⟩ = none
    ∧ check_closure ⟨fun _ => ""⟩
      ⟨[Pat.binding "s"],
        ClosureBody.methodCall ⟨Ty.bool, true, MethodContainer.traitC "T"⟩ "m"
          ⟨false, ArgKind.resolvedPath false ["s"], Ty.bool⟩ [] false⟩ = none :=
  ⟨(claim_C4_unsafe_no_finding ⟨fun _ => ""⟩).1 _ _ _ _ rfl,
   (claim_C4_unsafe_no_finding ⟨fun _ => ""⟩).2 _ _ _ _ _ _ rfl⟩

/-- Claim C5: in the method-call case, whenever qualified-name synthesis
returns no name, the detector abstains and emits no finding; failure is a
silent `none`, never an error. -/
theorem claim_C5_ufcs_none_abstains (env : Env) (params : List Pat) (sig : MethodSig)
    (methodName : String) (receiver : ArgExpr) (restArgs : List ArgExpr)
    (exAdjusted : Bool)
    (h : get_ufcs_type_name env sig receiver.ty = none) :
    check_closure env
      ⟨params, ClosureBody.methodCall sig methodName receiver restArgs exAdjusted⟩
      = none := by
  rw [check_closure_method_eq]
  split
  · rw [h]
  · rfl

/-- Witness for claim C5: a trait method whose declared self type is a
reference while the receiver is not, so name synthesis fails. -/
theorem claim_C5_witness :
    check_closure ⟨fun _ => ""⟩
      ⟨[Pat.binding "s"],
        ClosureBody.methodCall ⟨Ty.ref false Ty.bool, false, MethodContainer.traitC "T"⟩ "m"
          ⟨false, ArgKind.resolvedPath false ["s"], Ty.bool⟩ [] false⟩ = none :=
  claim_C5_ufcs_none_abstains ⟨fun _ => ""⟩ _ _ _ _ _ _ rfl

/-- Claim C6: for a method declared by a trait, qualified-name synthesis
yields exactly the trait's fully-qualified path, and does so exactly when
`match_borrow_depth` accepts the declared self type against the actual
receiver type; `match_borrow_depth` itself holds iff both types carry the
same number of leading reference layers. -/
theorem claim_C6_trait_case (env : Env) (sig : MethodSig) (actual : Ty)
    (traitPath : String) (h : sig.container = MethodContainer.traitC traitPath) :
    (get_ufcs_type_name env sig actual = some traitPath
      ↔ match_borrow_depth sig.selfTy actual = true)
    ∧ (∀ a b : Ty, match_borrow_depth a b = true ↔ refDepth a = refDepth b) := by
  refine ⟨?_, fun a b => match_borrow_depth_iff_refDepth a b⟩
  simp only [get_ufcs_type_name, h]
  by_cases hm : match_borrow_depth sig.selfTy actual
  · simp [hm]
  · simp [hm]

/-- Witness for claim C6: a trait method with matching borrow depth one on
both sides yields the trait path. -/
theorem claim_C6_witness :
    get_ufcs_type_name ⟨fun _ => ""⟩
      ⟨Ty.ref false Ty.bool, false, MethodContainer.traitC "MyTrait"⟩
      (Ty.ref true Ty.char) = some "MyTrait" :=
  ((claim_C6_trait_case ⟨fun _ => ""⟩
      ⟨Ty.ref false Ty.bool, false, MethodContainer.traitC "MyTrait"⟩
      (Ty.ref true Ty.char) "MyTrait" rfl).1).mpr (by decide)

/-- Claim C7: for a method of an inherent impl, qualified-name synthesis
yields the printable nominal name of the actual receiver type exactly when
`match_types` accepts; `match_types` itself is structural equality of the
descriptors after erasing the payloads it ignores (same-to-same primitive
kinds, recursive on ref/array/slice, nominal identity on ADTs, every
other pairing rejected). -/
theorem claim_C7_inherent_case (env : Env) (sig : MethodSig) (actual : Ty)
    (h : sig.container = MethodContainer.implC) :
    (get_ufcs_type_name env sig actual
        = if match_types sig.selfTy actual then some (get_type_name env actual) else none)
    ∧ (∀ a b : Ty, match_types a b = true ↔ shape a = shape b) := by
  refine ⟨?_, fun a b => match_types_iff_shape a b⟩
  simp only [get_ufcs_type_name, h]

/-- Witness for claim C7: an inherent method on the ADT with definition
id 7, receiver the same ADT with different type arguments. -/
theorem claim_C7_witness :
    get_ufcs_type_name ⟨fun d => if d = 7 then "my::Struct" else ""⟩
      ⟨Ty.adt 7 0, false, MethodContainer.implC⟩ (Ty.adt 7 3) = some "my::Struct" := by
  rw [(claim_C7_inherent_case ⟨fun d => if d = 7 then "my::Struct" else ""⟩
      ⟨Ty.adt 7 0, false, MethodContainer.implC⟩ (Ty.adt 7 3) rfl).1]
  rfl

/-- Claim C8: the recursive tree walks `match_borrow_depth`, `match_types`
and `get_type_name` all terminate on every finite type descriptor: the
fuel-indexed versions already return a result (rather than running out of
budget) at fuel equal to the descriptor's structural size. -/
theorem claim_C8_termination (env : Env) (a b : Ty) :
    mbdFuel (sizeTy a) a b = some (match_borrow_depth a b)
    ∧ mtFuel (sizeTy a) a b = some (match_types a b)
    ∧ gtnFuel env (sizeTy a) a = some (get_type_name env a) :=
  ⟨mbdFuel_size a b, mtFuel_size a b, gtnFuel_size env a⟩

/-- Claim C9: both structural comparisons are symmetric, and both are
reflexive, over the whole type-descriptor grammar. -/
theorem claim_C9_symm_refl :
    (∀ a b : Ty, match_types a b = match_types b a
        ∧ match_borrow_depth a b = match_borrow_depth b a)
    ∧ (∀ t : Ty, match_types t t = true ∧ match_borrow_depth t t = true) :=
  ⟨fun a b => ⟨match_types_symm a b, match_borrow_depth_symm a b⟩,
   fun t => ⟨match_types_refl t, match_borrow_depth_refl t⟩⟩

/-- Claim C10: in the direct-call case, when all preconditions hold but the
callee's source snippet cannot be recovered, a finding is still emitted,
merely without replacement text; in the method-call case, failure of name
synthesis suppresses the finding entirely. -/
theorem claim_C10_missing_snippet (env : Env) :
    (∀ (params : List Pat) (caller : CallerExpr) (callArgs : List ArgExpr)
        (exAdjusted : Bool),
        callArgs.length = params.length → exAdjusted = false →
        (∀ a ∈ callArgs, a.isAdjusted = false) →
        caller.isUnsafeFnTy = false → compare_inputs params callArgs = true →
        caller.src = none →
        check_closure env ⟨params, ClosureBody.call caller callArgs exAdjusted⟩
          = some ⟨none⟩)
    ∧ (∀ (params : List Pat) (sig : MethodSig) (methodName : String)
        (receiver : ArgExpr) (restArgs : List ArgExpr) (exAdjusted : Bool),
        get_ufcs_type_name env sig receiver.ty = none →
        check_closure env
          ⟨params, ClosureBody.methodCall sig methodName receiver restArgs exAdjusted⟩
          = none) := by
  constructor
  · intro params caller callArgs exAdjusted h1 h2 h3 h4 h5 hsrc
    rw [check_closure_call_eq, if_pos ⟨h1, h2, h3, h4, h5⟩, hsrc]
  · intro params sig methodName receiver restArgs exAdjusted h
    rw [check_closure_method_eq]
    split
    · rw [h]
    · rfl

/-- Witness for claim C10: a direct call that forwards its one parameter but
whose callee has no recoverable source text still yields a finding without
replacement text. -/
theorem claim_C10_witness :
    check_closure ⟨fun _ => ""⟩
      ⟨[Pat.binding "x"],
        ClosureBody.call ⟨false, none⟩
          [⟨false, ArgKind.resolvedPath false ["x"], Ty.bool⟩] false⟩
      = some ⟨none⟩ :=
  (claim_C10_missing_snippet ⟨fun _ => ""⟩).1 _ _ _ _ rfl rfl
    (by simp) rfl rfl rfl
